import Mathlib

/-!
# Verification of `ml-service/convert_to_onnx.py`

A shallow embedding of the pure logic of the conversion script
`convert_to_onnx.py`, which turns a persisted sklearn model artifact into
an ONNX graph plus a JSON configuration document.

Python dictionaries are embedded as association lists in insertion order:
assigning to an existing key overwrites the value in place (keeping the
key's position), assigning to a fresh key appends at the end, and lookup
returns the value of the (unique) matching key.  Floating point numbers
never undergo arithmetic in the script — they are only compared against
constants — so they are embedded as rationals.
-/

/-- Python dict assignment `d[k] = v`: overwrite in place if the key is
present, else append the new pair at the end. -/
def dictInsert {α β : Type} [DecidableEq α] (d : List (α × β)) (k : α) (v : β) :
    List (α × β) :=
  match d with
  | [] => [(k, v)]
  | p :: rest => if p.1 = k then (k, v) :: rest else p :: dictInsert rest k v

/-- Python dict lookup `d[k]` / `d.get(k)`: the value at the first (unique)
matching key. -/
def dictLookup {α β : Type} [DecidableEq α] (k : α) : List (α × β) → Option β
  | [] => none
  | p :: rest => if p.1 = k then some p.2 else dictLookup k rest

/-- `prefixChars p l` is true iff the character list `p` is a prefix of `l`
(Python `str.startswith`, on the underlying characters). -/
def prefixChars : List Char → List Char → Bool
  | [], _ => true
  | _ :: _, [] => false
  | a :: as, b :: bs => if a = b then prefixChars as bs else false

/-- `infixChars needle hay` is true iff `needle` occurs contiguously in
`hay` (Python `needle in hay` for strings). -/
def infixChars (needle : List Char) : List Char → Bool
  | [] => prefixChars needle []
  | c :: t => prefixChars needle (c :: t) || infixChars needle t

/-- Python `s.startswith(p)`. -/
def strStartsWith (s p : String) : Bool := prefixChars p.data s.data

/-- Python `needle in hay` (substring containment). -/
def strContains (hay needle : String) : Bool := infixChars needle.data hay.data

/-- Python `s.lower()` (the script only lowers ASCII feature names). -/
def strLower (s : String) : String := String.mk (s.data.map Char.toLower)

/-- Replace every non-overlapping occurrence of `pat` in the character
list, scanning left to right (Python `str.replace` for a non-empty
pattern).  The `fuel` argument only drives termination: every recursive
call consumes at least one character, so `fuel = length` is enough. -/
def replaceCharsFuel (pat rep : List Char) : Nat → List Char → List Char
  | 0, s => s
  | _ + 1, [] => []
  | fuel + 1, c :: rest =>
    if prefixChars pat (c :: rest) then
      rep ++ replaceCharsFuel pat rep fuel (List.drop (pat.length - 1) rest)
    else
      c :: replaceCharsFuel pat rep fuel rest

/-- Python `s.replace(pat, rep)` for a non-empty `pat`. -/
def strReplace (s pat rep : String) : String :=
  String.mk (replaceCharsFuel pat.data rep.data s.data.length s.data)

/-- Split a character list at the first occurrence of `sep`, returning the
parts before and after it, or `none` when `sep` does not occur. -/
def splitAtFirst (sep : Char) : List Char → Option (List Char × List Char)
  | [] => none
  | c :: rest =>
    if c = sep then some ([], rest)
    else (splitAtFirst sep rest).map (fun p => (c :: p.1, p.2))

/-- Python `s.split(sep, 1)`: a one-element list when `sep` does not occur
in `s`, else the two parts around the first occurrence. -/
def pySplit1 (s : String) (sep : Char) : List String :=
  match splitAtFirst sep s.data with
  | none => [s]
  | some (a, b) => [String.mk a, String.mk b]

/-! ## The loaded model artifact (`model_data` in `main`) -/

/-- The in-memory artifact produced by `joblib.load`: the fields `main`
reads from `model_data`.  The estimator object itself is opaque; of it the
script only uses `hasattr(model, 'feature_importances_')` and, when
present, the importance vector (aligned with `feature_columns`), so only
those two observations are kept.  `n_classes` and `class_mapping` are
optional (`model_data.get` with a default); class-mapping keys are already
integers (the script normalises string keys to `int`, embedded here as
`Nat` keys directly). -/
structure ModelData where
  model_name : String
  feature_columns : List String
  useful_features : List String
  metrics : List (String × Rat)
  n_classes : Option Nat
  class_mapping : Option (List (Nat × String))
  has_feature_importances : Bool
  feature_importances_vec : List Rat

/-- `n_classes = model_data.get('n_classes', 2)`. -/
def nClassesOf (md : ModelData) : Nat := md.n_classes.getD 2

/-- `class_mapping = model_data.get('class_mapping', {0: 'not_accessible', 1: 'accessible'})`. -/
def classMappingOf (md : ModelData) : List (Nat × String) :=
  md.class_mapping.getD [(0, "not_accessible"), (1, "accessible")]

/-! ## Feature importances -/

/-- The `accessibility_positive` vocabulary (line 95). -/
def accessibility_positive : List String :=
  ["automatic_door", "toilets_wheelchair", "ramp", "elevator", "tactile_paving",
   "hearing_loop", "wheelchair", "accessible", "ground", "entrance", "door"]

/-- The `accessibility_negative` vocabulary (line 99). -/
def accessibility_negative : List String :=
  ["stairs", "step_count", "barrier", "kerb", "upper", "basement"]

/-- The `place_type` vocabulary (line 100). -/
def place_type : List String :=
  ["amenity", "shop", "tourism", "healthcare", "building", "leisure"]

/-- The per-column heuristic importance (body of the loop at lines 102-114):
base `0.01`, overridden by the first matching category in priority order. -/
def heuristicImportance (col : String) : Rat :=
  let col_lower := strLower col
  if accessibility_positive.any (fun pos => strContains col_lower pos) then mkRat 15 100
  else if accessibility_negative.any (fun neg => strContains col_lower neg) then mkRat 12 100
  else if place_type.any (fun pt => strContains col_lower pt) then mkRat 8 100
  else if strStartsWith col_lower "has_" then mkRat 5 100
  else mkRat 1 100

/-- The heuristic branch (lines 102-117): for each column compute the
heuristic importance and store it in the dict when it exceeds the base
`0.01`. -/
def heuristicImportances (cols : List String) : List (String × Rat) :=
  cols.foldl
    (fun d col =>
      if mkRat 1 100 < heuristicImportance col then
        dictInsert d col (heuristicImportance col)
      else d)
    []

/-- The native branch loop (lines 84-86):
`for idx, importance in enumerate(importances): if importance > 0:
feature_importances[feature_columns[idx]] = importance`.  The index is
threaded explicitly; `feature_columns[idx]` presupposes the importance
vector is no longer than `feature_columns` (Python would raise
`IndexError` otherwise), embedded with `List.getD`. -/
def nativeLoop (cols : List String) : Nat → List (String × Rat) → List Rat → List (String × Rat)
  | _, d, [] => d
  | idx, d, imp :: rest =>
    nativeLoop cols (idx + 1)
      (if 0 < imp then dictInsert d (cols.getD idx "") imp else d) rest

/-- The native branch (lines 82-86). -/
def nativeImportances (cols : List String) (imps : List Rat) : List (String × Rat) :=
  nativeLoop cols 0 [] imps

/-! ## Labels -/

/-- Lines 123-127: labels from the class mapping when `n_classes == 3`
(`class_mapping.get(i, f'class_{i}')` for `i in range(3)`), else the fixed
2-class list. -/
def labelsOf (n_classes : Nat) (cm : List (Nat × String)) : List String :=
  if n_classes = 3 then
    (List.range 3).map (fun i => (dictLookup i cm).getD ("class_" ++ toString i))
  else
    ["not_accessible", "accessible"]

/-! ## Encoding info (`generate_encoding_info`, lines 174-205) -/

/-- One entry of `encoding['has_features']`. -/
structure HasFeature where
  column : String
  tag : String
deriving DecidableEq

/-- The value returned by `generate_encoding_info`. -/
structure EncodingInfo where
  has_features : List HasFeature
  categorical_features : List (String × List (String × String))
deriving DecidableEq

/-- One iteration of the loop at lines 184-203.  A `has_`-column records a
`{column, tag}` pair, where the tag name is the column with `has_`
replaced away (`col.replace('has_', '')`).  Any other column is split on
the first underscore (`col.split('_', 1)`); a two-part split records the
column under `categorical_features[tag_name][value]` (creating the inner
dict when absent), a one-part split is skipped. -/
def encStep (e : EncodingInfo) (col : String) : EncodingInfo :=
  if strStartsWith col "has_" then
    { e with
      has_features :=
        e.has_features ++ [{ column := col, tag := "tags." ++ strReplace col "has_" "" }] }
  else
    match pySplit1 col '_' with
    | [tag_name, value] =>
      { e with
        categorical_features :=
          dictInsert e.categorical_features tag_name
            (dictInsert ((dictLookup tag_name e.categorical_features).getD []) value col) }
    | _ => e

/-- `generate_encoding_info(useful_features, feature_columns)` — the
`useful_features` parameter is accepted but never read by the body. -/
def generate_encoding_info (useful_features feature_columns : List String) : EncodingInfo :=
  feature_columns.foldl encStep { has_features := [], categorical_features := [] }

/-! ## The ONNX conversion call (lines 57-69) -/

/-- Element type of a declared ONNX tensor input; the script only ever
uses `FloatTensorType`, i.e. 32-bit floats. -/
inductive ElemType where
  | float32 : ElemType
deriving DecidableEq

/-- A declared tensor type: element type and shape, where `none` in a
dimension is Python's `None` (unbounded). -/
structure TensorType where
  elem : ElemType
  shape : List (Option Nat)
deriving DecidableEq

/-- `skl2onnx.common.data_types.FloatTensorType(shape)`. -/
def FloatTensorType (shape : List (Option Nat)) : TensorType :=
  { elem := ElemType.float32, shape := shape }

/-- The arguments `main` passes to `convert_sklearn` (lines 59-69):
named inputs, the explicitly pinned `target_opset`, and the per-model
`zipmap` option. -/
structure ConvertArgs where
  initial_types : List (String × TensorType)
  target_opset : Option Nat
  zipmap : Bool
deriving DecidableEq

/-- The concrete conversion call of lines 59-69: one declared input named
`float_input` of shape `[None, len(feature_columns)]`, `target_opset=12`,
`zipmap: False`. -/
def convertCallArgs (md : ModelData) : ConvertArgs :=
  { initial_types := [("float_input", FloatTensorType [none, some md.feature_columns.length])],
    target_opset := some 12,
    zipmap := false }

/-- The possible outputs of the produced graph. -/
inductive GraphOutput where
  | label : GraphOutput
  | probTensor : GraphOutput
  | probMap : GraphOutput
deriving DecidableEq

/-- Modelled from the spec: the graph-conversion library `skl2onnx` is an
external dependency whose code is not part of this repository.  Per the
spec (§4.3 and the comment at lines 62-63 of the script), a classifier
converted with the per-class mapping (`zipmap`) option disabled yields a
graph whose first output is the predicted label and whose second output is
a per-class probability tensor; with `zipmap` enabled the second output is
a dictionary-shaped per-class mapping instead. -/
def convertedGraphOutputs (args : ConvertArgs) : List GraphOutput :=
  if args.zipmap then [GraphOutput.label, GraphOutput.probMap]
  else [GraphOutput.label, GraphOutput.probTensor]

/-! ## The output config document (lines 131-143) -/

/-- The `config` dict written to `model_config.json`. -/
structure Config where
  model_name : String
  n_classes : Nat
  feature_columns : List String
  useful_features : List String
  metrics : List (String × Rat)
  input_name : String
  output_names : List String
  labels : List String
  class_mapping : List (Nat × String)
  encoding_info : EncodingInfo
  feature_importances : List (String × Rat)

/-- Assembly of the config document from the loaded artifact
(lines 80-143): the importance map comes from the native branch when the
estimator exposes `feature_importances_` and from the heuristic branch
otherwise; labels and class mapping use the defaulted artifact fields. -/
def buildConfig (md : ModelData) : Config :=
  { model_name := md.model_name,
    n_classes := nClassesOf md,
    feature_columns := md.feature_columns,
    useful_features := md.useful_features,
    metrics := md.metrics,
    input_name := "float_input",
    output_names := ["output_label", "output_probability"],
    labels := labelsOf (nClassesOf md) (classMappingOf md),
    class_mapping := classMappingOf md,
    encoding_info := generate_encoding_info md.useful_features md.feature_columns,
    feature_importances :=
      if md.has_feature_importances then
        nativeImportances md.feature_columns md.feature_importances_vec
      else
        heuristicImportances md.feature_columns }

/-! ## Run skeleton: path fallback, writes, smoke test (lines 22-171) -/

/-- First candidate artifact path (line 22), relative to the project root. -/
def geographicModelPath : String := "accessibility_model_geographic.joblib"

/-- Second candidate artifact path (line 25). -/
def worldwideModelPath : String := "accessibility_model_worldwide.joblib"

/-- Third candidate artifact path (line 27). -/
def threeClassModelPath : String := "accessibility_model_3class_best_overall.joblib"

/-- Output path of the ONNX graph (line 29), relative to the project root. -/
def ONNX_OUTPUT_PATH : String := "public/models/accessibility_model.onnx"

/-- Output path of the config document (line 30). -/
def CONFIG_OUTPUT_PATH : String := "app/api/accessibility-predict/model_config.json"

/-- The module-level fallback chain of lines 22-27, parameterised by the
file-existence oracle `ex` (`os.path.exists`): start from the geographic
path and twice re-check the currently selected path, falling back to the
next candidate when it does not exist. -/
def selectModelPath (ex : String → Bool) : String :=
  let m := geographicModelPath
  let m := if ex m then m else worldwideModelPath
  let m := if ex m then m else threeClassModelPath
  m

/-- Contents written to disk by the run. -/
inductive FileContent where
  | onnxGraph : FileContent
  | configDoc : Config → FileContent

/-- Observable outcome of a run of `main`: which files were written (in
order), whether the process completed without an uncaught exception, and
whether the smoke test succeeded. -/
structure RunState where
  written : List (String × FileContent)
  ok : Bool
  smokePassed : Bool

/-- The effectful skeleton of `main` (lines 33-171), parameterised by
oracles for the environment: `ex` is `os.path.exists`, `load` is
`joblib.load` (returning `none` when it raises), `convert` is
`convert_sklearn` (an `error` is an uncaught conversion failure), and
`smoke` is the outcome of the ONNX-runtime smoke test (lines 151-169).
Loading happens before anything is written; conversion happens before the
graph file is written (line 64 before line 76); the graph file is written
before the config file (line 76 before line 145); the smoke test comes
last and both of its failure modes are caught (lines 166-169), so it
affects neither completion nor the written files. -/
def runMain (ex : String → Bool) (load : String → Option ModelData)
    (convert : ModelData → Except String Unit) (smoke : Except String Unit) : RunState :=
  let path := selectModelPath ex
  match load path with
  | none => { written := [], ok := false, smokePassed := false }
  | some md =>
    match convert md with
    | Except.error _ => { written := [], ok := false, smokePassed := false }
    | Except.ok _ =>
      { written := [(ONNX_OUTPUT_PATH, FileContent.onnxGraph),
                    (CONFIG_OUTPUT_PATH, FileContent.configDoc (buildConfig md))],
        ok := true,
        smokePassed := match smoke with | Except.ok _ => true | Except.error _ => false }

/-! ## Concrete artifacts used in witnesses and counterexamples -/

/-- A 3-class artifact with the class mapping from the spec's example. -/
def mdThreeClass : ModelData :=
  { model_name := "RandomForestClassifier",
    feature_columns := ["has_ramp", "amenity_cafe"],
    useful_features := ["has_ramp"],
    metrics := [("f1", mkRat 9 10)],
    n_classes := some 3,
    class_mapping := some [(0, "not_accessible"), (1, "limited"), (2, "accessible")],
    has_feature_importances := true,
    feature_importances_vec := [mkRat 6 10, mkRat 4 10] }

/-- A 3-class artifact with an absent class mapping: the defaulted mapping
`{0: not_accessible, 1: accessible}` has no entry for index 2, so the
label derivation reaches the `class_2` fallback. -/
def mdThreeClassAbsentMapping : ModelData :=
  { model_name := "HistGradientBoostingClassifier",
    feature_columns := ["has_ramp"],
    useful_features := [],
    metrics := [],
    n_classes := some 3,
    class_mapping := none,
    has_feature_importances := false,
    feature_importances_vec := [] }

/-- A 2-class artifact whose class mapping disagrees with the fixed
2-class label list. -/
def mdTwoClassRelabelled : ModelData :=
  { model_name := "RandomForestClassifier",
    feature_columns := ["has_ramp"],
    useful_features := [],
    metrics := [],
    n_classes := some 2,
    class_mapping := some [(0, "left"), (1, "right")],
    has_feature_importances := true,
    feature_importances_vec := [1] }

example : strContains (strLower "Has_Ramp") "ramp" = true := by decide
example : heuristicImportance "has_ramp" = mkRat 15 100 := by decide
example : heuristicImportance "stairs_present" = mkRat 12 100 := by decide
example : heuristicImportance "random_flag_7" = mkRat 1 100 := by decide
example : strReplace "has_has_door" "has_" "" = "door" := by decide
example : pySplit1 "amenity_cafe" '_' = ["amenity", "cafe"] := by decide
example : pySplit1 "abc" '_' = ["abc"] := by decide
example :
    (generate_encoding_info [] ["has_elevator"]).has_features =
      [{ column := "has_elevator", tag := "tags.elevator" }] := by decide
example : labelsOf 3 [(0, "a"), (1, "b"), (2, "c")] = ["a", "b", "c"] := by decide
example : labelsOf 2 [(0, "a"), (1, "b")] = ["not_accessible", "accessible"] := by decide
example : nativeImportances ["a", "b"] [mkRat 2 10, 0] = [("a", mkRat 2 10)] := by decide
example : heuristicImportances ["has_ramp", "random_flag_7"] = [("has_ramp", mkRat 15 100)] := by decide

/-! ## Dictionary lemmas -/

theorem dictInsert_of_fresh {α β : Type} [DecidableEq α] (d : List (α × β)) (k : α) (v : β)
    (h : ∀ p ∈ d, p.1 ≠ k) : dictInsert d k v = d ++ [(k, v)] := by
  induction d with
  | nil => rfl
  | cons p rest ih =>
    simp only [dictInsert]
    rw [if_neg (h p (List.mem_cons_self p rest))]
    rw [ih fun q hq => h q (List.mem_cons_of_mem p hq)]
    rfl

theorem dictLookup_dictInsert_self {α β : Type} [DecidableEq α] (d : List (α × β)) (k : α)
    (v : β) : dictLookup k (dictInsert d k v) = some v := by
  induction d with
  | nil => simp [dictInsert, dictLookup]
  | cons p rest ih =>
    by_cases h : p.1 = k
    · simp [dictInsert, h, dictLookup]
    · simp [dictInsert, h, dictLookup, ih]

theorem dictLookup_dictInsert_ne {α β : Type} [DecidableEq α] (d : List (α × β)) (k k' : α)
    (v : β) (h : k' ≠ k) : dictLookup k' (dictInsert d k v) = dictLookup k' d := by
  induction d with
  | nil => simp [dictInsert, dictLookup, Ne.symm h]
  | cons p rest ih =>
    by_cases hp : p.1 = k
    · simp [dictInsert, hp, dictLookup, Ne.symm h]
    · simp [dictInsert, hp, dictLookup, ih]

theorem mem_dictInsert {α β : Type} [DecidableEq α] {d : List (α × β)} {k : α} {v : β}
    {q : α × β} (hq : q ∈ dictInsert d k v) : q = (k, v) ∨ q ∈ d := by
  induction d with
  | nil => simp [dictInsert] at hq; simp [hq]
  | cons p rest ih =>
    by_cases hp : p.1 = k
    · rw [dictInsert, if_pos hp] at hq
      rcases List.mem_cons.mp hq with h | h
      · exact Or.inl h
      · exact Or.inr (List.mem_cons_of_mem p h)
    · rw [dictInsert, if_neg hp] at hq
      rcases List.mem_cons.mp hq with h | h
      · exact Or.inr (h ▸ List.mem_cons_self p rest)
      · rcases ih h with h' | h'
        · exact Or.inl h'
        · exact Or.inr (List.mem_cons_of_mem p h')

theorem dictLookup_mem {α β : Type} [DecidableEq α] {d : List (α × β)} {k : α} {b : β}
    (h : dictLookup k d = some b) : (k, b) ∈ d := by
  induction d with
  | nil => simp [dictLookup] at h
  | cons p rest ih =>
    rw [dictLookup] at h
    by_cases hp : p.1 = k
    · rw [if_pos hp] at h
      have : p = (k, b) := by
        cases p
        simp_all
      exact this ▸ List.mem_cons_self p rest
    · rw [if_neg hp] at h
      exact List.mem_cons_of_mem p (ih h)

/-! ## String lemmas -/

theorem prefixChars_subset {p l : List Char} (h : prefixChars p l = true) :
    ∀ c ∈ p, c ∈ l := by
  induction p generalizing l with
  | nil => simp
  | cons a as ih =>
    cases l with
    | nil => simp [prefixChars] at h
    | cons b bs =>
      rw [prefixChars] at h
      by_cases hab : a = b
      · rw [if_pos hab] at h
        intro c hc
        rcases List.mem_cons.mp hc with h' | h'
        · exact (h'.trans hab) ▸ List.mem_cons_self b bs
        · exact List.mem_cons_of_mem b (ih h c h')
      · rw [if_neg hab] at h
        exact absurd h (by simp)

theorem splitAtFirst_append {sep : Char} :
    ∀ {s a b : List Char}, splitAtFirst sep s = some (a, b) → s = a ++ sep :: b := by
  intro s
  induction s with
  | nil => intro a b h; simp [splitAtFirst] at h
  | cons c rest ih =>
    intro a b h
    rw [splitAtFirst] at h
    by_cases hc : c = sep
    · rw [if_pos hc] at h
      cases h
      simp [hc]
    · rw [if_neg hc] at h
      cases hsp : splitAtFirst sep rest with
      | none => rw [hsp] at h; simp at h
      | some p =>
        rw [hsp] at h
        simp only [Option.map_some'] at h
        cases h
        simpa using congrArg (c :: ·) (ih hsp)

theorem splitAtFirst_none {sep : Char} :
    ∀ {s : List Char}, splitAtFirst sep s = none → sep ∉ s := by
  intro s
  induction s with
  | nil => intro _; simp
  | cons c rest ih =>
    intro h
    rw [splitAtFirst] at h
    by_cases hc : c = sep
    · rw [if_pos hc] at h; simp at h
    · rw [if_neg hc] at h
      cases hsp : splitAtFirst sep rest with
      | none =>
        intro hmem
        rcases List.mem_cons.mp hmem with h' | h'
        · exact hc h'.symm
        · exact ih hsp h'
      | some p => rw [hsp] at h; simp at h

theorem strmk_append (a b : List Char) : String.mk a ++ String.mk b = String.mk (a ++ b) := rfl

/-- A two-part `split('_', 1)` result reconstructs the original column:
`col = tag_name ++ "_" ++ value`, and conversely determines the raw split. -/
theorem pySplit1_two {col t v : String} (h : pySplit1 col '_' = [t, v]) :
    col = t ++ "_" ++ v ∧ splitAtFirst '_' col.data = some (t.data, v.data) := by
  obtain ⟨cd⟩ := col
  rw [pySplit1] at h
  cases hsp : splitAtFirst '_' (String.mk cd).data with
  | none => rw [hsp] at h; simp at h
  | some p =>
    obtain ⟨a, b⟩ := p
    rw [hsp] at h
    simp only [List.cons.injEq, and_true] at h
    obtain ⟨ht, hv⟩ := h
    subst ht; subst hv
    have hcd : cd = a ++ '_' :: b := splitAtFirst_append hsp
    constructor
    · show String.mk cd = String.mk a ++ String.mk ['_'] ++ String.mk b
      rw [strmk_append, strmk_append, hcd]
      simp
    · rfl

/-- A one-part `split('_', 1)` result means the separator does not occur. -/
theorem pySplit1_one {col : String} (h : pySplit1 col '_' = [col]) :
    splitAtFirst '_' col.data = none := by
  rw [pySplit1] at h
  cases hsp : splitAtFirst '_' col.data with
  | none => rfl
  | some p => rw [hsp] at h; simp at h

theorem pySplit1_shapes (col : String) (sep : Char) :
    (splitAtFirst sep col.data = none ∧ pySplit1 col sep = [col]) ∨
    (∃ a b, splitAtFirst sep col.data = some (a, b) ∧
      pySplit1 col sep = [String.mk a, String.mk b]) := by
  rw [pySplit1]
  cases hsp : splitAtFirst sep col.data with
  | none => exact Or.inl ⟨rfl, rfl⟩
  | some p => exact Or.inr ⟨p.1, p.2, rfl, rfl⟩

/-! ## C1, C2, C3, C10 -/

/-- C1: for every loaded artifact, the `feature_columns` list written into
the output config document is exactly the artifact's `feature_columns`
list — same elements, same order, never re-sorted or deduplicated. -/
theorem c1_feature_columns_preserved (md : ModelData) :
    (buildConfig md).feature_columns = md.feature_columns := rfl

theorem c1_feature_columns_preserved_witness :
    (buildConfig mdThreeClass).feature_columns = ["has_ramp", "amenity_cafe"] :=
  (c1_feature_columns_preserved mdThreeClass).trans rfl

/-- C2 as stated is false on the code: the class mapping is only consulted
when `n_classes == 3`.  A 2-class artifact whose class mapping relabels the
classes as `left`/`right` still gets the fixed labels
`["not_accessible", "accessible"]`. -/
theorem c2_labels_counterexample :
    (buildConfig mdTwoClassRelabelled).labels ≠ ["left", "right"] ∧
    (buildConfig mdTwoClassRelabelled).labels = ["not_accessible", "accessible"] :=
  ⟨by decide, rfl⟩

/-- C2 (amended): the labels list is derived from the (defaulted) class
mapping only when the class count is 3, in which case it is exactly the
mapping's entries at indices 0, 1, 2 in order, with an index missing from
the mapping falling back to the literal `class_i`; for every other class
count the labels list is the fixed 2-class list
`["not_accessible", "accessible"]` regardless of the class mapping. -/
theorem c2_labels_amended (md : ModelData) :
    (nClassesOf md = 3 →
      (buildConfig md).labels =
        [(dictLookup 0 (classMappingOf md)).getD "class_0",
         (dictLookup 1 (classMappingOf md)).getD "class_1",
         (dictLookup 2 (classMappingOf md)).getD "class_2"]) ∧
    (nClassesOf md ≠ 3 → (buildConfig md).labels = ["not_accessible", "accessible"]) := by
  constructor
  · intro h3
    show labelsOf (nClassesOf md) (classMappingOf md) = _
    rw [labelsOf, if_pos h3]
    rfl
  · intro hne
    show labelsOf (nClassesOf md) (classMappingOf md) = _
    rw [labelsOf, if_neg hne]

theorem c2_labels_witness :
    (buildConfig mdThreeClass).labels = ["not_accessible", "limited", "accessible"] ∧
    (buildConfig mdThreeClassAbsentMapping).labels =
      ["not_accessible", "accessible", "class_2"] :=
  ⟨(c2_labels_amended mdThreeClass).1 rfl,
    (c2_labels_amended mdThreeClassAbsentMapping).1 rfl⟩

/-- C3: the conversion is invoked with one declared input `float_input` of
unbounded batch dimension, feature dimension `len(feature_columns)` and
32-bit float element type; the opset is pinned explicitly to 12 rather
than left to the library default; and with `zipmap` disabled the produced
graph's outputs are the predicted label followed by a per-class
probability tensor, never a dictionary-shaped output. -/
theorem c3_convert_call_spec (md : ModelData) :
    (convertCallArgs md).initial_types =
      [("float_input", FloatTensorType [none, some md.feature_columns.length])] ∧
    (FloatTensorType [none, some md.feature_columns.length]).elem = ElemType.float32 ∧
    (convertCallArgs md).target_opset = some 12 ∧
    (convertCallArgs md).target_opset ≠ none ∧
    (convertCallArgs md).zipmap = false ∧
    convertedGraphOutputs (convertCallArgs md) = [GraphOutput.label, GraphOutput.probTensor] :=
  ⟨rfl, rfl, rfl, by simp [convertCallArgs], rfl, rfl⟩

theorem c3_convert_call_spec_witness :
    (convertCallArgs mdThreeClass).target_opset = some 12 ∧
    convertedGraphOutputs (convertCallArgs mdThreeClass) =
      [GraphOutput.label, GraphOutput.probTensor] :=
  ⟨(c3_convert_call_spec mdThreeClass).2.2.1, (c3_convert_call_spec mdThreeClass).2.2.2.2.2⟩

/-- C10: the encoding info depends only on the feature column list — the
`useful_features` argument of `generate_encoding_info` is ignored. -/
theorem c10_encoding_info_ignores_useful_features (u1 u2 cols : List String) :
    generate_encoding_info u1 cols = generate_encoding_info u2 cols := rfl

theorem c10_encoding_info_ignores_useful_features_witness :
    generate_encoding_info ["a"] ["has_x"] = generate_encoding_info ["b", "c"] ["has_x"] :=
  c10_encoding_info_ignores_useful_features ["a"] ["b", "c"] ["has_x"]

/-! ## Encoding-info lemmas -/

theorem encStep_has {e : EncodingInfo} {col : String} (hs : strStartsWith col "has_" = true) :
    encStep e col =
      { e with has_features :=
          e.has_features ++ [{ column := col, tag := "tags." ++ strReplace col "has_" "" }] } := by
  simp [encStep, hs]

theorem encStep_skip {e : EncodingInfo} {col : String} (hs : strStartsWith col "has_" = false)
    (hsp : pySplit1 col '_' = [col]) : encStep e col = e := by
  simp [encStep, hs, hsp]

theorem encStep_cat {e : EncodingInfo} {col t v : String}
    (hs : strStartsWith col "has_" = false) (hsp : pySplit1 col '_' = [t, v]) :
    encStep e col =
      { e with categorical_features := (dictInsert e.categorical_features t
          (dictInsert ((dictLookup t e.categorical_features).getD []) v col)) } := by
  simp [encStep, hs, hsp]

theorem foldl_encStep_has_features (cols : List String) :
    ∀ e : EncodingInfo,
      (cols.foldl encStep e).has_features =
        e.has_features ++ cols.filterMap (fun col =>
          if strStartsWith col "has_" then
            some { column := col, tag := "tags." ++ strReplace col "has_" "" }
          else none) := by
  induction cols with
  | nil => intro e; simp
  | cons c rest ih =>
    intro e
    rw [List.foldl_cons, ih, List.filterMap_cons]
    by_cases hs : strStartsWith c "has_" = true
    · rw [encStep_has hs]
      simp [hs]
    · have hs' : strStartsWith c "has_" = false := by simpa using hs
      have hhf : (encStep e c).has_features = e.has_features := by
        rcases pySplit1_shapes c '_' with ⟨-, h2⟩ | ⟨a, b, -, h2⟩
        · rw [encStep_skip hs' h2]
        · rw [encStep_cat hs' h2]
      simp [hhf, hs']

/-- Inserting later columns never disturbs an established categorical
round-trip entry whose stored value is the reconstruction
`tag_name ++ "_" ++ value`. -/
theorem catLookup_stable (cols : List String) :
    ∀ (e : EncodingInfo) (t v : String),
      dictLookup v ((dictLookup t e.categorical_features).getD []) = some (t ++ "_" ++ v) →
      dictLookup v ((dictLookup t (cols.foldl encStep e).categorical_features).getD []) =
        some (t ++ "_" ++ v) := by
  induction cols with
  | nil => intro e t v h; exact h
  | cons c rest ih =>
    intro e t v h
    rw [List.foldl_cons]
    apply ih
    by_cases hs : strStartsWith c "has_" = true
    · rw [encStep_has hs]; exact h
    · have hs' : strStartsWith c "has_" = false := by simpa using hs
      rcases pySplit1_shapes c '_' with ⟨-, h2⟩ | ⟨a, b, -, h2⟩
      · rw [encStep_skip hs' h2]; exact h
      · rw [encStep_cat hs' h2]
        have hrec := (pySplit1_two h2).1
        by_cases ht : t = String.mk a
        · subst ht
          rw [dictLookup_dictInsert_self, Option.getD_some]
          by_cases hv : v = String.mk b
          · subst hv
            rw [dictLookup_dictInsert_self]
            exact congrArg some hrec
          · rw [dictLookup_dictInsert_ne _ _ _ _ hv]
            exact h
        · rw [dictLookup_dictInsert_ne _ _ _ _ ht]
          exact h

/-- Every column recorded in a `has_features` entry or as a categorical
value contains an underscore, provided that was true of the accumulator. -/
theorem catvals_underscore (cols : List String) :
    ∀ e : EncodingInfo,
      (∀ p ∈ e.categorical_features, ∀ q ∈ p.2, '_' ∈ q.2.data) →
      ∀ p ∈ (cols.foldl encStep e).categorical_features, ∀ q ∈ p.2, '_' ∈ q.2.data := by
  induction cols with
  | nil => intro e he; exact he
  | cons c rest ih =>
    intro e he
    rw [List.foldl_cons]
    apply ih
    by_cases hs : strStartsWith c "has_" = true
    · rw [encStep_has hs]; exact he
    · have hs' : strStartsWith c "has_" = false := by simpa using hs
      rcases pySplit1_shapes c '_' with ⟨-, h2⟩ | ⟨a, b, hsp, h2⟩
      · rw [encStep_skip hs' h2]; exact he
      · rw [encStep_cat hs' h2]
        intro p hp q hq
        have hcd : c.data = a ++ '_' :: b := by
          have := splitAtFirst_append hsp
          exact this
        rcases mem_dictInsert hp with hp' | hp'
        · subst hp'
          rcases mem_dictInsert hq with hq' | hq'
          · subst hq'
            rw [hcd]
            simp
          · cases hlk : dictLookup (String.mk a) e.categorical_features with
            | none => rw [hlk] at hq'; simp at hq'
            | some inner =>
              rw [hlk] at hq'
              exact he _ (dictLookup_mem hlk) q hq'
        · exact he p hp' q hq

/-- Every recorded `has_features` column starts with `has_` and therefore
contains an underscore. -/
theorem hasfeat_column_underscore {u cols : List String} {hf : HasFeature}
    (h : hf ∈ (generate_encoding_info u cols).has_features) : '_' ∈ hf.column.data := by
  rw [show generate_encoding_info u cols
        = cols.foldl encStep { has_features := [], categorical_features := [] } from rfl,
      foldl_encStep_has_features] at h
  simp only [List.nil_append, List.mem_filterMap] at h
  obtain ⟨col, -, hcol⟩ := h
  by_cases hs : strStartsWith col "has_" = true
  · rw [if_pos hs] at hcol
    cases hcol
    exact prefixChars_subset hs '_' (by decide)
  · rw [if_neg hs] at hcol
    cases hcol

/-- A processed non-`has_` column with a two-part split is recoverable by
the nested lookup, whatever the accumulator. -/
theorem cat_roundtrip_aux (cols : List String) :
    ∀ (e : EncodingInfo) (col t v : String), col ∈ cols →
      strStartsWith col "has_" = false → pySplit1 col '_' = [t, v] →
      dictLookup v ((dictLookup t (cols.foldl encStep e).categorical_features).getD []) =
        some col := by
  induction cols with
  | nil => intro e col t v hmem; cases hmem
  | cons c rest ih =>
    intro e col t v hmem hs hsp
    rw [List.foldl_cons]
    rcases List.mem_cons.mp hmem with rfl | hmem'
    · have hrec := (pySplit1_two hsp).1
      have key : dictLookup v
          ((dictLookup t (encStep e col).categorical_features).getD []) =
          some (t ++ "_" ++ v) := by
        rw [encStep_cat hs hsp, dictLookup_dictInsert_self, Option.getD_some,
          dictLookup_dictInsert_self]
        exact congrArg some hrec
      conv_rhs => rw [hrec]
      exact catLookup_stable rest (encStep e col) t v key
    · exact ih (encStep e c) col t v hmem' hs hsp

/-! ## C6 and C7 -/

/-- C6 as stated is false on the code: `col.replace('has_', '')` removes
every occurrence of `has_`, not only the leading prefix.  For the column
`has_has_door` the code records the tag `tags.door`, not `tags.has_door`
(the column with exactly the leading prefix stripped). -/
theorem c6_tag_strip_counterexample :
    (generate_encoding_info [] ["has_has_door"]).has_features ≠
      [{ column := "has_has_door", tag := "tags.has_door" }] := by decide

/-- C6 (amended): for every feature column beginning with `has_`, the
encoding info records a pair whose tag is `tags.` followed by the column
name with every non-overlapping occurrence of `has_` removed (left to
right) — which equals plain prefix-stripping whenever `has_` occurs only
at the front, as in the spec's `has_elevator` example. -/
theorem c6_tag_strip_amended :
    (∀ (u cols : List String) (col : String), col ∈ cols →
      strStartsWith col "has_" = true →
      { column := col, tag := "tags." ++ strReplace col "has_" "" } ∈
        (generate_encoding_info u cols).has_features) ∧
    (generate_encoding_info [] ["has_elevator"]).has_features =
      [{ column := "has_elevator", tag := "tags.elevator" }] ∧
    (generate_encoding_info [] ["has_has_door"]).has_features =
      [{ column := "has_has_door", tag := "tags.door" }] := by
  refine ⟨?_, by decide, by decide⟩
  intro u cols col hmem hs
  rw [show generate_encoding_info u cols
        = cols.foldl encStep { has_features := [], categorical_features := [] } from rfl,
      foldl_encStep_has_features]
  simp only [List.nil_append, List.mem_filterMap]
  exact ⟨col, hmem, by rw [if_pos hs]⟩

theorem c6_tag_strip_witness :
    { column := "has_ramp", tag := "tags.ramp" } ∈
      (generate_encoding_info [] ["has_ramp"]).has_features :=
  c6_tag_strip_amended.1 [] ["has_ramp"] "has_ramp" (by decide) (by decide)

/-- C7: a non-`has_` column containing an underscore round-trips through
the categorical map — splitting on the first underscore into
`(tag_name, value)` gives `categorical_features[tag_name][value] == col` —
while a non-`has_` column without an underscore is silently skipped: it
appears nowhere in the encoding info (and no error is raised, the
generator being total).  The spec's `amenity_cafe` example is included. -/
theorem c7_categorical_roundtrip :
    (∀ (u cols : List String) (col t v : String), col ∈ cols →
      strStartsWith col "has_" = false → pySplit1 col '_' = [t, v] →
      dictLookup v
        ((dictLookup t (generate_encoding_info u cols).categorical_features).getD []) =
        some col) ∧
    (∀ (u cols : List String) (col : String), col ∈ cols → '_' ∉ col.data →
      (∀ hf ∈ (generate_encoding_info u cols).has_features, hf.column ≠ col) ∧
      (∀ p ∈ (generate_encoding_info u cols).categorical_features, ∀ q ∈ p.2, q.2 ≠ col)) ∧
    dictLookup "cafe"
      ((dictLookup "amenity"
        (generate_encoding_info [] ["amenity_cafe"]).categorical_features).getD []) =
      some "amenity_cafe" := by
  refine ⟨?_, ?_, by decide⟩
  · intro u cols col t v hmem hs hsp
    exact cat_roundtrip_aux cols _ col t v hmem hs hsp
  · intro u cols col _ hnou
    constructor
    · intro hf hhf heq
      exact hnou (heq ▸ hasfeat_column_underscore hhf)
    · intro p hp q hq heq
      have hunder : '_' ∈ q.2.data := by
        refine catvals_underscore cols _ ?_ p hp q hq
        intro p' hp'
        cases hp'
      exact hnou (heq ▸ hunder)

theorem c7_categorical_roundtrip_witness :
    dictLookup "cafe"
      ((dictLookup "amenity"
        (generate_encoding_info ["zz"] ["amenity_cafe", "abc"]).categorical_features).getD []) =
      some "amenity_cafe" ∧
    (∀ hf ∈ (generate_encoding_info ["zz"] ["amenity_cafe", "abc"]).has_features,
      hf.column ≠ "abc") :=
  ⟨c7_categorical_roundtrip.1 ["zz"] ["amenity_cafe", "abc"] "amenity_cafe" "amenity" "cafe"
      (by decide) (by decide) (by decide),
    (c7_categorical_roundtrip.2.1 ["zz"] ["amenity_cafe", "abc"] "abc"
      (by decide) (by decide)).1⟩

/-! ## Importance lemmas -/

theorem drop_getD_cons {l : List String} {i : Nat} (h : i < l.length) :
    l.drop i = l.getD i "" :: l.drop (i + 1) := by
  induction l generalizing i with
  | nil => simp at h
  | cons x xs ih =>
    cases i with
    | zero => simp
    | succ n =>
      rw [List.drop_succ_cons, List.getD_cons_succ]
      exact ih (by simpa using h)

theorem nodup_drop {l : List String} (h : l.Nodup) (i : Nat) : (l.drop i).Nodup := by
  induction i generalizing l with
  | zero => simpa using h
  | succ n ih =>
    cases l with
    | nil => simp
    | cons x xs => rw [List.drop_succ_cons]; exact ih (List.Nodup.of_cons h)

/-- Unrolling the native importance loop from index `idx`: with distinct
column names and an importance vector fitting inside the remaining
columns, the loop appends exactly the strictly-positive entries of the
column/importance alignment. -/
theorem nativeLoop_eq (cols : List String) (h2 : cols.Nodup) :
    ∀ (imps : List Rat) (idx : Nat) (d : List (String × Rat)),
      idx + imps.length ≤ cols.length →
      (∀ p ∈ d, p.1 ∉ cols.drop idx) →
      nativeLoop cols idx d imps =
        d ++ ((cols.drop idx).zip imps).filter (fun p => decide (0 < p.2)) := by
  intro imps
  induction imps with
  | nil => intro idx d _ _; simp [nativeLoop]
  | cons imp rest ih =>
    intro idx d hlen hfresh
    have hidx : idx < cols.length := by
      simp only [List.length_cons] at hlen
      omega
    have hcons := drop_getD_cons hidx
    have hget_mem : cols.getD idx "" ∈ cols.drop idx := by
      rw [hcons]; exact List.mem_cons_self _ _
    have hnotin : cols.getD idx "" ∉ cols.drop (idx + 1) := by
      have hnd : (cols.drop idx).Nodup := nodup_drop h2 idx
      rw [hcons] at hnd
      exact (List.nodup_cons.mp hnd).1
    rw [nativeLoop]
    by_cases hpos : (0 : Rat) < imp
    · rw [if_pos hpos]
      rw [dictInsert_of_fresh _ _ _
        (fun p hp hk => hfresh p hp (hk ▸ hget_mem))]
      rw [ih (idx + 1) _ (by simp only [List.length_cons] at hlen; omega) ?fresh]
      · rw [hcons, List.zip_cons_cons, List.filter_cons]
        simp [hpos]
      case fresh =>
        intro p hp
        rcases List.mem_append.mp hp with hp1 | hp2
        · intro hmem
          exact hfresh p hp1 (by rw [hcons]; exact List.mem_cons_of_mem _ hmem)
        · simp only [List.mem_singleton] at hp2
          subst hp2
          exact hnotin
    · rw [if_neg hpos]
      rw [ih (idx + 1) d (by simp only [List.length_cons] at hlen; omega) ?fresh2]
      · rw [hcons, List.zip_cons_cons, List.filter_cons]
        simp [hpos]
      case fresh2 =>
        intro p hp hmem
        exact hfresh p hp (by rw [hcons]; exact List.mem_cons_of_mem _ hmem)

/-- Unrolling the heuristic fold: with distinct column names it appends
exactly the columns whose heuristic importance exceeds the base. -/
theorem heuristicFold_eq (cols : List String) (h : cols.Nodup) :
    ∀ d : List (String × Rat), (∀ p ∈ d, p.1 ∉ cols) →
      cols.foldl
        (fun d col =>
          if mkRat 1 100 < heuristicImportance col then
            dictInsert d col (heuristicImportance col)
          else d) d =
      d ++ cols.filterMap (fun col =>
        if mkRat 1 100 < heuristicImportance col then
          some (col, heuristicImportance col)
        else none) := by
  induction cols with
  | nil => intro d _; simp
  | cons c rest ih =>
    intro d hfresh
    have hc : c ∉ rest := (List.nodup_cons.mp h).1
    have hrest : rest.Nodup := (List.nodup_cons.mp h).2
    rw [List.foldl_cons, List.filterMap_cons]
    by_cases hgt : mkRat 1 100 < heuristicImportance c
    · rw [if_pos hgt, if_pos hgt]
      rw [dictInsert_of_fresh _ _ _
        (fun p hp hk => hfresh p hp (hk ▸ List.mem_cons_self c rest))]
      rw [ih hrest _ ?fresh]
      · simp
      case fresh =>
        intro p hp
        rcases List.mem_append.mp hp with hp1 | hp2
        · exact fun hmem => hfresh p hp1 (List.mem_cons_of_mem c hmem)
        · simp only [List.mem_singleton] at hp2
          subst hp2
          exact hc
    · rw [if_neg hgt, if_neg hgt]
      exact ih hrest d fun p hp hmem => hfresh p hp (List.mem_cons_of_mem c hmem)

/-! ## C4 and C5 -/

/-- C4: for an estimator exposing a native importance vector aligned with
the (distinct) feature columns, the output importance map consists of
exactly the columns whose native importance is strictly positive, each
mapped to that importance; zero (and negative) importances are omitted.
The config uses this native map whenever the estimator exposes
`feature_importances_`. -/
theorem c4_native_importances_spec (cols : List String) (imps : List Rat)
    (h1 : imps.length = cols.length) (h2 : cols.Nodup) :
    nativeImportances cols imps = (cols.zip imps).filter (fun p => decide (0 < p.2)) ∧
    (∀ md : ModelData, md.has_feature_importances = true →
      (buildConfig md).feature_importances =
        nativeImportances md.feature_columns md.feature_importances_vec) ∧
    (∀ (c : String) (v : Rat),
      (c, v) ∈ nativeImportances cols imps ↔ ((c, v) ∈ cols.zip imps ∧ 0 < v)) := by
  have hmain : nativeImportances cols imps =
      (cols.zip imps).filter (fun p => decide (0 < p.2)) := by
    rw [nativeImportances, nativeLoop_eq cols h2 imps 0 [] (by omega) (by simp)]
    simp
  refine ⟨hmain, ?_, ?_⟩
  · intro md hmd
    simp [buildConfig, hmd]
  · intro c v
    rw [hmain]
    simp [List.mem_filter]

theorem c4_native_importances_witness :
    nativeImportances ["a", "b"] [mkRat 2 10, 0] = [("a", mkRat 2 10)] := by
  rw [(c4_native_importances_spec ["a", "b"] [mkRat 2 10, 0] (by decide) (by decide)).1]
  decide

/-- C5: for an estimator lacking native importances, each column's
heuristic importance is determined by case-insensitive substring matching
with the first matching category winning in priority order (positive
vocabulary 0.15, negative 0.12, place-type 0.08, `has_` prefix 0.05,
base 0.01), and the final map keeps exactly the columns whose value
exceeds the base 0.01; `has_ramp` yields 0.15, `stairs_present` 0.12,
and `random_flag_7` stays at the base and is omitted.  The config uses
this heuristic map whenever the estimator lacks `feature_importances_`. -/
theorem c5_heuristic_importances_spec :
    heuristicImportance "has_ramp" = mkRat 15 100 ∧
    heuristicImportance "stairs_present" = mkRat 12 100 ∧
    heuristicImportance "random_flag_7" = mkRat 1 100 ∧
    (∀ cols : List String, cols.Nodup →
      heuristicImportances cols = cols.filterMap (fun col =>
        if mkRat 1 100 < heuristicImportance col then
          some (col, heuristicImportance col)
        else none)) ∧
    (∀ md : ModelData, md.has_feature_importances = false →
      (buildConfig md).feature_importances = heuristicImportances md.feature_columns) ∧
    dictLookup "has_ramp"
      (heuristicImportances ["has_ramp", "stairs_present", "random_flag_7"]) =
      some (mkRat 15 100) ∧
    dictLookup "stairs_present"
      (heuristicImportances ["has_ramp", "stairs_present", "random_flag_7"]) =
      some (mkRat 12 100) ∧
    dictLookup "random_flag_7"
      (heuristicImportances ["has_ramp", "stairs_present", "random_flag_7"]) = none := by
  refine ⟨by decide, by decide, by decide, ?_, ?_, by decide, by decide, by decide⟩
  · intro cols hnd
    rw [heuristicImportances, heuristicFold_eq cols hnd [] (by simp)]
    simp
  · intro md hmd
    simp [buildConfig, hmd]

theorem c5_heuristic_importances_witness :
    heuristicImportances ["has_ramp", "random_flag_7"] =
      [("has_ramp", mkRat 15 100)] := by
  rw [c5_heuristic_importances_spec.2.2.2.1 ["has_ramp", "random_flag_7"] (by decide)]
  decide

/-! ## C8 and C9 -/

/-- C8: the artifact path is the first of the three fixed candidates
(geographic, worldwide, 3-class) that exists; when neither of the first
two exists the third is selected whether or not it exists, so when none
of the three exists the load fails and the run ends with no output file
written. -/
theorem c8_model_path_fallback :
    (∀ ex : String → Bool, ex geographicModelPath = true →
      selectModelPath ex = geographicModelPath) ∧
    (∀ ex : String → Bool, ex geographicModelPath = false →
      ex worldwideModelPath = true → selectModelPath ex = worldwideModelPath) ∧
    (∀ ex : String → Bool, ex geographicModelPath = false →
      ex worldwideModelPath = false → selectModelPath ex = threeClassModelPath) ∧
    (∀ (ex : String → Bool) (load : String → Option ModelData)
        (convert : ModelData → Except String Unit) (smoke : Except String Unit),
      (∀ p, ex p = false → load p = none) →
      ex geographicModelPath = false → ex worldwideModelPath = false →
      ex threeClassModelPath = false →
      (runMain ex load convert smoke).written = [] ∧
        (runMain ex load convert smoke).ok = false) := by
  refine ⟨?_, ?_, ?_, ?_⟩
  · intro ex h
    simp [selectModelPath, h]
  · intro ex h1 h2
    simp [selectModelPath, h1, h2]
  · intro ex h1 h2
    simp [selectModelPath, h1, h2]
  · intro ex load convert smoke hcoh h1 h2 h3
    have hpath : selectModelPath ex = threeClassModelPath := by
      simp [selectModelPath, h1, h2]
    have hload : load (selectModelPath ex) = none := by
      rw [hpath]; exact hcoh _ h3
    constructor <;> simp [runMain, hload]

theorem c8_model_path_fallback_witness :
    selectModelPath (fun _ => true) = geographicModelPath ∧
    (runMain (fun _ => false) (fun _ => none) (fun _ => Except.ok ())
      (Except.ok ())).written = [] :=
  ⟨c8_model_path_fallback.1 (fun _ => true) rfl,
    (c8_model_path_fallback.2.2.2 (fun _ => false) (fun _ => none)
      (fun _ => Except.ok ()) (Except.ok ()) (fun _ _ => rfl) rfl rfl rfl).1⟩

/-- C9: whatever error the smoke test raises, it is caught: the run still
completes (`ok = true`), the graph and config files written in the prior
steps are still recorded as written, and the written files are identical
to the ones of a run whose smoke test succeeds. -/
theorem c9_smoke_test_nonfatal (ex : String → Bool) (load : String → Option ModelData)
    (convert : ModelData → Except String Unit) (md : ModelData) (e : String)
    (hload : load (selectModelPath ex) = some md)
    (hconv : convert md = Except.ok ()) :
    (runMain ex load convert (Except.error e)).ok = true ∧
    (ONNX_OUTPUT_PATH, FileContent.onnxGraph) ∈
      (runMain ex load convert (Except.error e)).written ∧
    (CONFIG_OUTPUT_PATH, FileContent.configDoc (buildConfig md)) ∈
      (runMain ex load convert (Except.error e)).written ∧
    (runMain ex load convert (Except.error e)).written =
      (runMain ex load convert (Except.ok ())).written := by
  simp [runMain, hload, hconv]

theorem c9_smoke_test_nonfatal_witness :
    (runMain (fun _ => true) (fun _ => some mdThreeClass) (fun _ => Except.ok ())
      (Except.error "boom")).ok = true ∧
    (CONFIG_OUTPUT_PATH, FileContent.configDoc (buildConfig mdThreeClass)) ∈
      (runMain (fun _ => true) (fun _ => some mdThreeClass) (fun _ => Except.ok ())
        (Except.error "boom")).written :=
  ⟨(c9_smoke_test_nonfatal (fun _ => true) (fun _ => some mdThreeClass)
      (fun _ => Except.ok ()) mdThreeClass "boom" rfl rfl).1,
    (c9_smoke_test_nonfatal (fun _ => true) (fun _ => some mdThreeClass)
      (fun _ => Except.ok ()) mdThreeClass "boom" rfl rfl).2.2.1⟩
